import Mathlib

/-
Verification development for the racerx scraping script (datascrape.py).

The script is embedded shallowly:

* HTML pages are abstract values: a listing page is the list of href
  strings of its anchors (in document order, as returned by
  soup.select applied to anchors with an href attribute); a result page
  is its elements (tag and extracted text, in document order) together
  with the tables that pandas read_html would return.
* Python regular expressions used by the script are translated into
  executable matchers over List Char.  re.search is modelled by trying
  the pattern matcher at every start position from the left
  (function reSearch below).  The character classes are ASCII here, as
  all the inputs of this script (URLs, page text) are ASCII.
* HTTP fetching, caching and exceptions are modelled by a World record
  of oracles returning Except values; the two loops of main are folds
  over the item lists with the same control flow as the source.
-/

namespace Datascrape

/-! ### Generic character-list utilities -/

/-- Longest prefix of characters satisfying p, together with the rest. -/
def runOf (p : Char → Bool) : List Char → List Char × List Char
  | [] => ([], [])
  | c :: t =>
    if p c then ((c :: (runOf p t).1, (runOf p t).2)) else ([], c :: t)

/-- Remove the given prefix from a character list, if it is a prefix. -/
def dropPrefix? : List Char → List Char → Option (List Char)
  | [], s => some s
  | _ :: _, [] => none
  | p :: ps, c :: cs => if p = c then dropPrefix? ps cs else none

/-- Model of re.search: try the pattern matcher at every start position,
left to right, returning the first result. -/
def reSearch {α : Type} (f : List Char → Option α) : List Char → Option α
  | [] => f []
  | c :: t =>
    match f (c :: t) with
    | some a => some a
    | none => reSearch f t

/-! ### The date-segment pattern of list_year_races -/

/-- Matcher for the core YYYY-MM-DD of the date patterns: consumes
four digits, a hyphen, two digits, a hyphen, two digits and a slash,
returning what follows the slash. -/
def dateCore? : List Char → Option (List Char)
  | y1 :: y2 :: y3 :: y4 :: '-' :: m1 :: m2 :: '-' :: d1 :: d2 :: '/' :: rest =>
    if y1.isDigit && y2.isDigit && y3.isDigit && y4.isDigit &&
        m1.isDigit && m2.isDigit && d1.isDigit && d2.isDigit then
      some rest
    else none
  | _ => none

/-- Pattern of re.search applied with /YYYY-MM-DD/ at one position. -/
def dateSegAt (s : List Char) : Bool :=
  match s with
  | '/' :: t => (dateCore? t).isSome
  | _ => false

/-- re.search for the /YYYY-MM-DD/ pattern anywhere in the string. -/
def containsDateSeg (s : List Char) : Bool :=
  (reSearch (fun t => if dateSegAt t then some () else none) s).isSome

/-! ### list_year_races -/

def BASE : String := "https://vault.racerxonline.com"

/-- Python str.startswith, on the underlying character lists. -/
def strStarts (s pre : String) : Bool := pre.data.isPrefixOf s.data

/-- Normalisation of one href in list_year_races: an href starting with
a slash is resolved against BASE, an href starting with http is kept
as is, anything else is skipped. -/
def normalizeHref (href : String) : Option String :=
  if strStarts href "/" then some (BASE ++ href)
  else if strStarts href "http" then some href
  else none

/-- The body of the link loop of list_year_races: the absolute URL if
the href is kept and matches the dated-event pattern. -/
def hrefLink (href : String) : Option String :=
  match normalizeHref href with
  | some full => if containsDateSeg full.data then some full else none
  | none => none

/-- Ordered insertion without duplicates, used to model sorted(set(..)). -/
def insertStr (a : String) : List String → List String
  | [] => [a]
  | b :: t =>
    if a = b then b :: t
    else if a < b then a :: b :: t
    else b :: insertStr a t

/-- Model of sorted(set(l)) for a list of strings. -/
def sortDedup (l : List String) : List String := l.foldr insertStr []

/-- list_year_races, given the hrefs of the anchors of the fetched
listing page: collect normalised links matching the dated-event
pattern, then return sorted(set(links)). -/
def list_year_races (hrefs : List String) : List String :=
  sortDedup (hrefs.filterMap hrefLink)

/-! ### The result-page data model -/

/-- A cell value of a pandas data frame: the original table cells and
the inserted metadata cells (strings, the int year, or None). -/
inductive Cell where
  | str : String → Cell
  | int : Int → Cell
  | null : Cell
  deriving DecidableEq, Repr

/-- An HTML element as seen through BeautifulSoup: its tag name and the
text get_text would return for it. -/
structure Element where
  tag : String
  text : String
  deriving DecidableEq, Repr

/-- A table as returned by pandas read_html. -/
structure Table where
  cols : List String
  rows : List (List Cell)
  deriving DecidableEq, Repr

/-- A fetched result page: its elements in document order and the
tables read_html finds on it. -/
structure Page where
  elems : List Element
  tables : List Table
  deriving DecidableEq, Repr

/-- The metadata dict returned by parse_result_page. -/
structure MetaRow where
  url : String
  title : String
  date : String
  raceClass : String
  venue : String
  deriving DecidableEq, Repr

/-! ### The date-text pattern of parse_result_page -/

/-- Tail of the date-text pattern after the space, two-digit-day
alternative of the greedy quantifier: digits, digits, comma, space and
four digits (the regex takes exactly the first four year digits). -/
def digitsTail2 : List Char → Option (List Char)
  | d1 :: d2 :: ',' :: ' ' :: y1 :: y2 :: y3 :: y4 :: _ =>
    if d1.isDigit && d2.isDigit && y1.isDigit && y2.isDigit && y3.isDigit && y4.isDigit then
      some [d1, d2, ',', ' ', y1, y2, y3, y4]
    else none
  | _ => none

/-- Tail of the date-text pattern after the space, one-digit-day
alternative. -/
def digitsTail1 : List Char → Option (List Char)
  | d1 :: ',' :: ' ' :: y1 :: y2 :: y3 :: y4 :: _ =>
    if d1.isDigit && y1.isDigit && y2.isDigit && y3.isDigit && y4.isDigit then
      some [d1, ',', ' ', y1, y2, y3, y4]
    else none
  | _ => none

/-- One-position matcher for the pattern of a word, a space, a one- or
two-digit day, a comma, a space and a four-digit year.  The word is
the maximal alphabetic run at this position (nonempty); the two-digit
alternative is tried first, matching the greedy quantifier of the
regex. -/
def dateMatchAt (s : List Char) : Option (List Char) :=
  if (runOf Char.isAlpha s).1 = [] then none
  else
    match (runOf Char.isAlpha s).2 with
    | ' ' :: r =>
      match digitsTail2 r with
      | some m => some ((runOf Char.isAlpha s).1 ++ ' ' :: m)
      | none =>
        match digitsTail1 r with
        | some m => some ((runOf Char.isAlpha s).1 ++ ' ' :: m)
        | none => none
    | _ => none

/-- Tags scanned by the date-text loop of parse_result_page. -/
def scanTag (t : String) : Bool := t == "h2" || t == "h3" || t == "p" || t == "div"

/-- The date-text loop of parse_result_page: the first element whose
text matches the date pattern supplies the matched text. -/
def dateLoop : List Element → String
  | [] => ""
  | e :: rest =>
    match reSearch dateMatchAt e.text.data with
    | some m => String.mk m
    | none => dateLoop rest

def dateTextOf (p : Page) : String :=
  dateLoop (p.elems.filter (fun e => scanTag e.tag))

/-- Tags accepted by soup.find for the title. -/
def headerTag (t : String) : Bool := t == "h1" || t == "h2"

/-- The title of parse_result_page: text of the first h1 or h2
element, or the empty string. -/
def titleOf (p : Page) : String :=
  match p.elems.find? (fun e => headerTag e.tag) with
  | some h => h.text
  | none => ""

/-! ### The class, venue and year patterns of parse_result_page -/

/-- After the date segment of the class pattern: a nonempty slash-free
segment followed by a slash; the captured group is that segment. -/
def classTail (t2 : List Char) : Option (List Char) :=
  if (runOf (fun c => c != '/') t2).1 = [] then none
  else
    match (runOf (fun c => c != '/') t2).2 with
    | '/' :: _ => some (runOf (fun c => c != '/') t2).1
    | _ => none

/-- One-position matcher for the class pattern: the date segment, then
a nonempty slash-free segment followed by a slash; the captured group
is that segment. -/
def classAt (s : List Char) : Option (List Char) :=
  match s with
  | '/' :: t => (dateCore? t).bind classTail
  | _ => none

/-- The final part of the venue pattern: a nonempty slash-free segment,
an optional slash and the end of the string. -/
def venueTail2 (t3 : List Char) : Option (List Char) :=
  if (runOf (fun c => c != '/') t3).1 = [] then none
  else if (runOf (fun c => c != '/') t3).2 = [] then some (runOf (fun c => c != '/') t3).1
  else if (runOf (fun c => c != '/') t3).2 = ['/'] then some (runOf (fun c => c != '/') t3).1
  else none

/-- After the date segment of the venue pattern: a nonempty slash-free
segment, a slash, then the final segment part. -/
def venueTail (t2 : List Char) : Option (List Char) :=
  if (runOf (fun c => c != '/') t2).1 = [] then none
  else
    match (runOf (fun c => c != '/') t2).2 with
    | '/' :: t3 => venueTail2 t3
    | _ => none

/-- One-position matcher for the venue pattern: the date segment, a
nonempty slash-free segment, a slash, then a final nonempty slash-free
segment, an optional slash and the end of the string; the captured
group is the final segment. -/
def venueAt (s : List Char) : Option (List Char) :=
  match s with
  | '/' :: t => (dateCore? t).bind venueTail
  | _ => none

/-- Python str.lower on a captured group. -/
def lowerChars (s : List Char) : List Char := s.map Char.toLower

/-- Python str.title: an alphabetic character is uppercased when the
previous character is not alphabetic and lowercased otherwise (ASCII
model of cased characters). -/
def pyTitleAux : Bool → List Char → List Char
  | _, [] => []
  | prev, c :: t =>
    if c.isAlpha then (if prev then c.toLower else c.toUpper) :: pyTitleAux true t
    else c :: pyTitleAux false t

def pyTitle (s : List Char) : List Char := pyTitleAux false s

/-- The venue transformation: hyphens become spaces, then title case. -/
def venueWords (seg : List Char) : List Char :=
  pyTitle (seg.map (fun c => if c = '-' then ' ' else c))

def classOf (url : String) : String :=
  match reSearch classAt url.data with
  | some seg => String.mk (lowerChars seg)
  | none => ""

def venueOf (url : String) : String :=
  match reSearch venueAt url.data with
  | some seg => String.mk (venueWords seg)
  | none => ""

/-- The literal prefix of the year-guess pattern of parse_result_page. -/
def vaultChars : List Char := "https://vault.racerxonline.com/".data

/-- Integer value of the four captured year digits. -/
def yearVal (a b c d : Char) : Int :=
  (((a.toNat - 48) * 1000 + (b.toNat - 48) * 100 + (c.toNat - 48) * 10 + (d.toNat - 48) : Nat) : Int)

/-- One-position matcher for the year-guess pattern: the literal site
prefix, four digits and a slash. -/
def yearAt (s : List Char) : Option Int :=
  match dropPrefix? vaultChars s with
  | some rest =>
    match rest with
    | a :: b :: c :: d :: '/' :: _ =>
      if a.isDigit && b.isDigit && c.isDigit && d.isDigit then some (yearVal a b c d) else none
    | _ => none
  | none => none

/-- The year metadata cell: int(m3.group(1)) if the pattern matched,
None otherwise. -/
def yearCell (url : String) : Cell :=
  match reSearch yearAt url.data with
  | some y => Cell.int y
  | none => Cell.null

/-- Python str.strip: whitespace removed from both ends (structural,
so that it evaluates; same behaviour as the library trim on the
whitespace handled here). -/
def strTrim (s : String) : String :=
  String.mk (((s.data.dropWhile Char.isWhitespace).reverse.dropWhile Char.isWhitespace).reverse)

/-! ### parse_result_page -/

/-- Insertion at a position, as pandas DataFrame.insert positions a new
column; positions past the end never occur in the script. -/
def insertAt {α : Type} : Nat → α → List α → List α
  | 0, a, l => a :: l
  | _ + 1, _, [] => []
  | n + 1, a, b :: l => b :: insertAt n a l

/-- df.insert(pos, name, value) with a constant value column. -/
def Table.insertCol (t : Table) (pos : Nat) (name : String) (v : Cell) : Table :=
  { cols := insertAt pos name t.cols, rows := t.rows.map (insertAt pos v) }

/-- parse_result_page, given the URL and the fetched page: computes the
title, date text, class, venue; returns None when the page has no
table; otherwise takes the first table, strips its column names, and
inserts the six metadata columns at positions 0 to 5. -/
def parse_result_page (url : String) (p : Page) : Option (MetaRow × Table) :=
  let title := titleOf p
  let date_text := dateTextOf p
  let race_class := classOf url
  let venue_slug := venueOf url
  match p.tables with
  | [] => none
  | t :: _ =>
    let df0 : Table := { cols := t.cols.map strTrim, rows := t.rows }
    let df := (((((df0.insertCol 0 "event_url" (Cell.str url)).insertCol 1 "title"
      (Cell.str title)).insertCol 2 "date" (Cell.str date_text)).insertCol 3 "class"
      (Cell.str race_class)).insertCol 4 "venue" (Cell.str venue_slug)).insertCol 5 "year"
      (yearCell url)
    some ({ url := url, title := title, date := date_text, raceClass := race_class,
            venue := venue_slug }, df)

/-! ### main: the two loops -/

/-- The fetch oracles: the listing fetch for a (series, year) pair
either yields the hrefs of the listing page or raises; the result-page
fetch either yields the page or raises (this also covers a read_html
failure, which the same except block catches). -/
structure World where
  listing : String → Nat → Except String (List String)
  page : String → Except String Page

def SERIES_MAP : List String := ["sx", "mx"]

def YEARS : List Nat := (List.range 52).map (fun k => 1974 + k)

/-- The (series, year) iteration space of the discovery loop. -/
def discoveryItems : List (String × Nat) :=
  (SERIES_MAP.map (fun s => YEARS.map (fun y => (s, y)))).flatten

/-- The listing URL fetched for a (series, year) pair. -/
def listingUrl (sy : String × Nat) : String :=
  BASE ++ "/" ++ toString sy.2 ++ "/" ++ sy.1 ++ "/races"

/-- Python set.update on the model of the link set. -/
def setUnion (acc links : List String) : List String :=
  acc ++ links.filter (fun u => !(acc.contains u))

/-- One iteration of the discovery loop: on success the discovered
links join the set, on an exception the set is left alone. -/
def discoverStep (w : World) (acc : List String) (sy : String × Nat) : List String :=
  match w.listing sy.1 sy.2 with
  | Except.ok hrefs => setUnion acc (list_year_races hrefs)
  | Except.error _ => acc

def discoverLoop (w : World) (acc : List String) (items : List (String × Nat)) : List String :=
  items.foldl (discoverStep w) acc

/-- The link set after the discovery loop of main. -/
def allLinks (w : World) : List String := discoverLoop w [] discoveryItems

/-- sorted(all_links): the URLs the extraction loop visits. -/
def visitedUrls (w : World) : List String := sortDedup (allLinks w)

/-- One iteration of the extraction loop: on an exception, or when
parse_result_page returns None, the accumulators are left alone;
otherwise the metadata row and the frame are appended. -/
def extractStep (w : World) (st : List MetaRow × List Table) (url : String) :
    List MetaRow × List Table :=
  match w.page url with
  | Except.error _ => st
  | Except.ok p =>
    match parse_result_page url p with
    | none => st
    | some (m, df) => (st.1 ++ [m], st.2 ++ [df])

def extractLoop (w : World) (st : List MetaRow × List Table) (urls : List String) :
    List MetaRow × List Table :=
  urls.foldl (extractStep w) st

/-- meta_rows after the extraction loop over the given URLs. -/
def meta_rows (w : World) (urls : List String) : List MetaRow :=
  (extractLoop w ([], []) urls).1

/-- frames after the extraction loop over the given URLs. -/
def frames (w : World) (urls : List String) : List Table :=
  (extractLoop w ([], []) urls).2

/-- main, from discovery to the two accumulators that are written out. -/
def mainResult (w : World) : List MetaRow × List Table :=
  extractLoop w ([], []) (visitedUrls w)

/-! ### The event trace of main, for the politeness-delay claim -/

/-- Observable events of a run: an HTTP fetch attempt and the 0.5 s
politeness sleep. -/
inductive Ev where
  | fetch : String → Ev
  | sleep : Ev
  deriving DecidableEq, Repr

/-- Events of one discovery iteration: the fetch always happens; the
sleep is inside the try block after the update, so it only happens
when the iteration does not raise. -/
def discoverEv (w : World) (sy : String × Nat) : List Ev :=
  match w.listing sy.1 sy.2 with
  | Except.ok _ => [Ev.fetch (listingUrl sy), Ev.sleep]
  | Except.error _ => [Ev.fetch (listingUrl sy)]

/-- Events of one extraction iteration: the fetch always happens; the
sleep is inside the try block, so it happens exactly when the
iteration does not raise (also when the page has no table). -/
def extractEv (w : World) (url : String) : List Ev :=
  match w.page url with
  | Except.ok _ => [Ev.fetch url, Ev.sleep]
  | Except.error _ => [Ev.fetch url]

/-- The event trace of the two loops of main run in order. -/
def crawlTrace (w : World) (items : List (String × Nat)) (urls : List String) : List Ev :=
  (items.map (discoverEv w)).flatten ++ (urls.map (extractEv w)).flatten

/-- The event trace of main itself. -/
def mainTrace (w : World) : List Ev := crawlTrace w discoveryItems (visitedUrls w)

/-- Whether every two consecutive fetches of a trace have a sleep
between them. -/
def spaced : List Ev → Bool
  | Ev.fetch _ :: Ev.fetch _ :: _ => false
  | _ :: rest => spaced rest
  | [] => true

/-! ### Declarative shapes, written from the wording of the claims -/

/-- A dated-event core: four digits, hyphen, two digits, hyphen, two
digits. -/
def IsDateCore (d : List Char) : Prop :=
  ∃ y1 y2 y3 y4 m1 m2 d1 d2,
    d = [y1, y2, y3, y4, '-', m1, m2, '-', d1, d2] ∧
    y1.isDigit = true ∧ y2.isDigit = true ∧ y3.isDigit = true ∧ y4.isDigit = true ∧
    m1.isDigit = true ∧ m2.isDigit = true ∧ d1.isDigit = true ∧ d2.isDigit = true

/-- The string contains a dated-event segment of the form /YYYY-MM-DD/
somewhere. -/
def ContainsDateSegP (s : List Char) : Prop :=
  ∃ i d rest, List.drop i s = '/' :: (d ++ '/' :: rest) ∧ IsDateCore d

/-- Text shaped like Month D, YYYY: an alphabetic word, a space, a one-
or two-digit day, a comma, a space and a four-digit year. -/
def IsDateShape (m : List Char) : Prop :=
  ∃ w d y1 y2 y3 y4,
    w ≠ [] ∧ (∀ c ∈ w, c.isAlpha = true) ∧
    (d.length = 1 ∨ d.length = 2) ∧ (∀ c ∈ d, c.isDigit = true) ∧
    y1.isDigit = true ∧ y2.isDigit = true ∧ y3.isDigit = true ∧ y4.isDigit = true ∧
    m = w ++ ' ' :: (d ++ [',', ' ', y1, y2, y3, y4])

/-- An occurrence of date-shaped text starting at position i of t. -/
def OccAt (t : List Char) (i : Nat) (m : List Char) : Prop :=
  ∃ rest, List.drop i t = m ++ rest ∧ IsDateShape m

/-- Some date-shaped text occurs in t. -/
def HasDateOcc (t : List Char) : Prop := ∃ i m, OccAt t i m

/-- m is the occurrence of date-shaped text in t that starts leftmost. -/
def LeftmostOcc (t m : List Char) : Prop :=
  ∃ i, OccAt t i m ∧ ∀ j, j < i → ∀ m2, ¬ OccAt t j m2

/-- The date string of the claim, scanning the given elements in
order: the first element whose text contains date-shaped text supplies
the leftmost occurrence in its text; the empty string if no element
matches. -/
def DateSpecList : List Element → String → Prop
  | [], s => s = ""
  | e :: rest, s =>
    (HasDateOcc e.text.data ∧ LeftmostOcc e.text.data s.data) ∨
      (¬ HasDateOcc e.text.data ∧ DateSpecList rest s)

/-- The title of the claim: the text of the first h1 or h2 element, the
empty string if there is none. -/
def TitleSpecList : List Element → String → Prop
  | [], s => s = ""
  | e :: rest, s =>
    (headerTag e.tag = true ∧ s = e.text) ∨
      (headerTag e.tag = false ∧ TitleSpecList rest s)

/-- The class pattern holds at position i of s with captured segment
seg: a date segment, then the nonempty slash-free segment seg, then a
slash. -/
def ClassAtPos (s : List Char) (i : Nat) (seg : List Char) : Prop :=
  ∃ d rest, List.drop i s = '/' :: (d ++ '/' :: (seg ++ '/' :: rest)) ∧ IsDateCore d ∧
    seg ≠ [] ∧ ∀ c ∈ seg, c ≠ '/'

/-- The venue pattern holds at position i of s with captured segment
seg: a date segment, a nonempty slash-free segment, a slash, then the
final nonempty slash-free segment seg, an optional slash and the end
of the string. -/
def VenueAtPos (s : List Char) (i : Nat) (seg : List Char) : Prop :=
  ∃ d mid tail, List.drop i s = '/' :: (d ++ '/' :: (mid ++ '/' :: (seg ++ tail))) ∧
    IsDateCore d ∧ mid ≠ [] ∧ (∀ c ∈ mid, c ≠ '/') ∧ seg ≠ [] ∧ (∀ c ∈ seg, c ≠ '/') ∧
    (tail = [] ∨ tail = ['/'])

/-- The path segment immediately following the first /YYYY-MM-DD/ date
segment of the URL, modelling the wording of claim C4 (none when the
URL has no segment after a date segment).  The segment runs to the
next slash or to the end of the URL. -/
def segAfterDate (url : String) : Option (List Char) :=
  match reSearch (fun t => if dateSegAt t then some (List.drop 12 t) else none) url.data with
  | some after => if (runOf (fun c => c != '/') after).1 = [] then none
                  else some (runOf (fun c => c != '/') after).1
  | none => none

/-! ### Concrete worlds used by counterexamples and witnesses -/

/-- A world where the 1974 listing fetches raise and everything else
succeeds with no links: used to exhibit the missing delay after a
failing iteration. -/
def wFail : World where
  listing := fun _ y => if y == 1974 then Except.error "HTTPError 404" else Except.ok []
  page := fun _ => Except.ok { elems := [], tables := [] }

/-- A world where mx listing fetches and all page fetches raise:
used as the concrete instance of the skip-and-continue claim. -/
def wErr : World where
  listing := fun s _ =>
    if s == "mx" then Except.error "HTTPError 500" else Except.ok ["/2024-01-06/450sx/anaheim"]
  page := fun _ => Except.error "ReadTimeout"

/-- A world where every fetch succeeds and each result page has one
one-column table: used as the concrete instance of the success-path
claims. -/
def wOk : World where
  listing := fun _ _ => Except.ok ["/2024-01-06/450sx/anaheim"]
  page := fun _ =>
    Except.ok { elems := [{ tag := "h1", text := "450SX Class" }],
                tables := [{ cols := ["Pos"], rows := [[Cell.str "1"]] }] }

/-- The alignment invariant of the extraction loop: as many metadata
rows as frames, and the i-th frame carries the URL of the i-th
metadata row in its event_url column. -/
def Aligned (st : List MetaRow × List Table) : Prop :=
  st.1.length = st.2.length ∧
  ∀ i (h1 : i < st.1.length) (h2 : i < st.2.length),
    (st.2.get ⟨i, h2⟩).cols.head? = some "event_url" ∧
    ∀ r ∈ (st.2.get ⟨i, h2⟩).rows, r.head? = some (Cell.str (st.1.get ⟨i, h1⟩).url)

/-! ### Lemmas about runOf -/

theorem runOf_eq_spec (p : Char → Bool) (s : List Char) :
    ∀ a b, runOf p s = (a, b) →
      s = a ++ b ∧ (∀ c ∈ a, p c = true) ∧ (b = [] ∨ ∃ x t, b = x :: t ∧ p x = false) := by
  induction s with
  | nil =>
    intro a b h
    unfold runOf at h
    cases h
    simp
  | cons c t ih =>
    intro a b h
    unfold runOf at h
    split at h
    · next hc =>
      cases h
      obtain ⟨h1, h2, h3⟩ := ih (runOf p t).1 (runOf p t).2 rfl
      refine ⟨?_, ?_, h3⟩
      · rw [List.cons_append, ← h1]
      · intro x hx
        rcases List.mem_cons.1 hx with rfl | hx
        · exact hc
        · exact h2 x hx
    · next hc =>
      cases h
      exact ⟨rfl, by simp, Or.inr ⟨c, t, rfl, by simpa using hc⟩⟩

theorem runOf_append_eq (p : Char → Bool) (a : List Char) (x : Char) (t : List Char)
    (ha : ∀ c ∈ a, p c = true) (hx : p x = false) :
    runOf p (a ++ x :: t) = (a, x :: t) := by
  induction a with
  | nil => simp [runOf, hx]
  | cons c cs ih =>
    have hc : p c = true := ha c (by simp)
    have ih2 := ih (fun d hd => ha d (by simp [hd]))
    simp [runOf, hc, ih2]

theorem runOf_all_eq (p : Char → Bool) (a : List Char) (ha : ∀ c ∈ a, p c = true) :
    runOf p a = (a, []) := by
  induction a with
  | nil => simp [runOf]
  | cons c cs ih =>
    have hc : p c = true := ha c (by simp)
    have ih2 := ih (fun d hd => ha d (by simp [hd]))
    simp [runOf, hc, ih2]

/-! ### Lemmas about reSearch -/

theorem reSearch_eq_none_iff {α : Type} (f : List Char → Option α) (s : List Char) :
    reSearch f s = none ↔ ∀ i, f (List.drop i s) = none := by
  induction s with
  | nil =>
    constructor
    · intro h i
      have h0 : f [] = none := by simpa [reSearch] using h
      simpa using h0
    · intro h
      simpa [reSearch] using h 0
  | cons c t ih =>
    cases hf : f (c :: t) with
    | some a =>
      constructor
      · intro h; exact absurd h (by simp [reSearch, hf])
      · intro h; exact absurd (h 0) (by simp [hf])
    | none =>
      have hr : reSearch f (c :: t) = reSearch f t := by simp [reSearch, hf]
      rw [hr, ih]
      constructor
      · intro h i
        cases i with
        | zero => simpa using hf
        | succ j => simpa using h j
      · intro h j
        simpa using h (j + 1)

theorem reSearch_eq_some_iff {α : Type} (f : List Char → Option α) (s : List Char) (a : α) :
    reSearch f s = some a ↔
      ∃ i, f (List.drop i s) = some a ∧ ∀ j, j < i → f (List.drop j s) = none := by
  induction s with
  | nil =>
    constructor
    · intro h
      exact ⟨0, by simpa [reSearch] using h, fun j hj => absurd hj (by omega)⟩
    · rintro ⟨i, hi, -⟩
      simpa [reSearch] using hi
  | cons c t ih =>
    cases hf : f (c :: t) with
    | some b =>
      have hr : reSearch f (c :: t) = some b := by simp [reSearch, hf]
      rw [hr]
      constructor
      · intro h
        exact ⟨0, by simpa using hf.trans h, fun j hj => absurd hj (by omega)⟩
      · rintro ⟨i, hi, hmin⟩
        cases i with
        | zero =>
          have : f (c :: t) = some a := by simpa using hi
          rw [hf] at this; exact this
        | succ k =>
          have := hmin 0 (by omega)
          simp only [List.drop_zero] at this
          rw [hf] at this; exact absurd this (by simp)
    | none =>
      have hr : reSearch f (c :: t) = reSearch f t := by simp [reSearch, hf]
      rw [hr, ih]
      constructor
      · rintro ⟨i, hi, hmin⟩
        refine ⟨i + 1, by simpa using hi, fun j hj => ?_⟩
        cases j with
        | zero => simpa using hf
        | succ k => simpa using hmin k (by omega)
      · rintro ⟨i, hi, hmin⟩
        cases i with
        | zero =>
          have : f (c :: t) = some a := by simpa using hi
          rw [hf] at this; exact absurd this (by simp)
        | succ k =>
          exact ⟨k, by simpa using hi, fun j hj => by simpa using hmin (j + 1) (by omega)⟩

/-! ### Lemmas about the date patterns -/

theorem dateCore?_eq_some_iff (t rest : List Char) :
    dateCore? t = some rest ↔ ∃ d, t = d ++ '/' :: rest ∧ IsDateCore d := by
  constructor
  · intro h
    unfold dateCore? at h
    split at h
    · next y1 y2 y3 y4 m1 m2 d1 d2 r =>
      split at h
      · next hdig =>
        obtain rfl : r = rest := by simpa using h
        simp only [Bool.and_eq_true] at hdig
        exact ⟨[y1, y2, y3, y4, '-', m1, m2, '-', d1, d2], by simp,
          y1, y2, y3, y4, m1, m2, d1, d2, rfl,
          hdig.1.1.1.1.1.1.1, hdig.1.1.1.1.1.1.2, hdig.1.1.1.1.1.2, hdig.1.1.1.1.2,
          hdig.1.1.1.2, hdig.1.1.2, hdig.1.2, hdig.2⟩
      · exact absurd h (by simp)
    · exact absurd h (by simp)
  · rintro ⟨d, rfl, y1, y2, y3, y4, m1, m2, d1, d2, rfl, h1, h2, h3, h4, h5, h6, h7, h8⟩
    show dateCore? (y1 :: y2 :: y3 :: y4 :: '-' :: m1 :: m2 :: '-' :: d1 :: d2 :: '/' :: rest)
      = some rest
    show (if y1.isDigit && y2.isDigit && y3.isDigit && y4.isDigit &&
        m1.isDigit && m2.isDigit && d1.isDigit && d2.isDigit then
      some rest else none) = some rest
    simp [h1, h2, h3, h4, h5, h6, h7, h8]

theorem dateSegAt_iff (s : List Char) :
    dateSegAt s = true ↔ ∃ d rest, s = '/' :: (d ++ '/' :: rest) ∧ IsDateCore d := by
  unfold dateSegAt
  split
  · rename_i t
    rw [Option.isSome_iff_exists]
    constructor
    · rintro ⟨rest, hr⟩
      obtain ⟨d, rfl, hd⟩ := (dateCore?_eq_some_iff t rest).1 hr
      exact ⟨d, rest, rfl, hd⟩
    · rintro ⟨d, rest, heq, hd⟩
      obtain rfl : t = d ++ '/' :: rest := by
        injection heq
      exact ⟨rest, (dateCore?_eq_some_iff _ rest).2 ⟨d, rfl, hd⟩⟩
  · rename_i hne
    constructor
    · intro h; exact absurd h (by simp)
    · rintro ⟨d, rest, heq, hd⟩
      exact absurd heq (by intro heq2; exact hne ((d ++ '/' :: rest)) heq2)

theorem containsDateSeg_iff (s : List Char) :
    containsDateSeg s = true ↔ ContainsDateSegP s := by
  unfold containsDateSeg
  rw [Option.isSome_iff_exists]
  constructor
  · rintro ⟨u, hu⟩
    rw [reSearch_eq_some_iff] at hu
    obtain ⟨i, hi, -⟩ := hu
    have hseg : dateSegAt (List.drop i s) = true := by
      by_contra hn
      simp [hn] at hi
    obtain ⟨d, rest, heq, hd⟩ := (dateSegAt_iff _).1 hseg
    exact ⟨i, d, rest, heq, hd⟩
  · rintro ⟨i, d, rest, heq, hd⟩
    cases hres : reSearch (fun t => if dateSegAt t then some () else none) s with
    | some u => exact ⟨u, rfl⟩
    | none =>
      rw [reSearch_eq_none_iff] at hres
      have := hres i
      have hseg : dateSegAt (List.drop i s) = true :=
        (dateSegAt_iff _).2 ⟨d, rest, heq, hd⟩
      rw [hseg] at this
      exact absurd this (by simp)

/-! ### Lemmas about sortDedup -/

theorem mem_insertStr (a x : String) (l : List String) :
    x ∈ insertStr a l ↔ x = a ∨ x ∈ l := by
  induction l with
  | nil => simp [insertStr]
  | cons b t ih =>
    unfold insertStr
    split
    · next hab => subst hab; simp only [List.mem_cons]; tauto
    · split
      · next hne hlt => simp only [List.mem_cons]
      · next hne hnlt => simp only [List.mem_cons, ih]; tauto

theorem sorted_insertStr (a : String) (l : List String) (h : List.Sorted (· < ·) l) :
    List.Sorted (· < ·) (insertStr a l) := by
  induction l with
  | nil => simp [insertStr]
  | cons b t ih =>
    rw [List.sorted_cons] at h
    obtain ⟨hb, ht⟩ := h
    unfold insertStr
    split
    · next hab => subst hab; exact List.sorted_cons.2 ⟨hb, ht⟩
    · split
      · next hne hlt =>
        refine List.sorted_cons.2 ⟨?_, List.sorted_cons.2 ⟨hb, ht⟩⟩
        intro x hx
        rcases List.mem_cons.1 hx with rfl | hx
        · exact hlt
        · exact lt_trans hlt (hb x hx)
      · next hne hnlt =>
        have hba : b < a := by
          rcases lt_trichotomy a b with h1 | h1 | h1
          · exact absurd h1 hnlt
          · exact absurd h1 hne
          · exact h1
        refine List.sorted_cons.2 ⟨?_, ih ht⟩
        intro x hx
        rcases (mem_insertStr a x t).1 hx with rfl | hx
        · exact hba
        · exact hb x hx

theorem sorted_sortDedup (l : List String) : List.Sorted (· < ·) (sortDedup l) := by
  induction l with
  | nil => simp [sortDedup]
  | cons a t ih => exact sorted_insertStr a (sortDedup t) ih

theorem nodup_sortDedup (l : List String) : (sortDedup l).Nodup :=
  (sorted_sortDedup l).nodup

theorem mem_sortDedup (l : List String) (x : String) : x ∈ sortDedup l ↔ x ∈ l := by
  induction l with
  | nil => simp [sortDedup]
  | cons a t ih =>
    show x ∈ insertStr a (sortDedup t) ↔ _
    rw [mem_insertStr, ih]
    simp [List.mem_cons]

/-! ### Characterisation of list_year_races -/

theorem mem_list_year_races (hrefs : List String) (u : String) :
    u ∈ list_year_races hrefs ↔ ∃ href ∈ hrefs, hrefLink href = some u := by
  unfold list_year_races
  rw [mem_sortDedup]
  simp [List.mem_filterMap]

theorem hrefLink_eq_some_iff (href u : String) :
    hrefLink href = some u ↔
      ((strStarts href "/" = true ∧ u = BASE ++ href) ∨
        (strStarts href "/" = false ∧ strStarts href "http" = true ∧ u = href)) ∧
      containsDateSeg u.data = true := by
  unfold hrefLink normalizeHref
  by_cases h1 : strStarts href "/" = true
  · rw [if_pos h1]
    show (if containsDateSeg (BASE ++ href).data = true then some (BASE ++ href) else none)
      = some u ↔ _
    by_cases h2 : containsDateSeg (BASE ++ href).data = true
    · rw [if_pos h2]
      constructor
      · intro h
        obtain rfl : BASE ++ href = u := by simpa using h
        exact ⟨Or.inl ⟨h1, rfl⟩, h2⟩
      · rintro ⟨hu | hu, hc⟩
        · obtain ⟨-, rfl⟩ := hu
          rfl
        · rw [h1] at hu
          exact absurd hu.1 (by simp)
    · rw [if_neg h2]
      constructor
      · intro h; exact absurd h (by simp)
      · rintro ⟨hu | hu, hc⟩
        · obtain ⟨-, rfl⟩ := hu
          exact absurd hc h2
        · rw [h1] at hu
          exact absurd hu.1 (by simp)
  · have h1f : strStarts href "/" = false := by simpa using h1
    rw [if_neg h1]
    by_cases h2 : strStarts href "http" = true
    · rw [if_pos h2]
      show (if containsDateSeg href.data = true then some href else none) = some u ↔ _
      by_cases h3 : containsDateSeg href.data = true
      · rw [if_pos h3]
        constructor
        · intro h
          obtain rfl : href = u := by simpa using h
          exact ⟨Or.inr ⟨h1f, h2, rfl⟩, h3⟩
        · rintro ⟨hu | hu, hc⟩
          · rw [h1f] at hu
            exact absurd hu.1 (by simp)
          · obtain ⟨-, -, rfl⟩ := hu
            rfl
      · rw [if_neg h3]
        constructor
        · intro h; exact absurd h (by simp)
        · rintro ⟨hu | hu, hc⟩
          · rw [h1f] at hu
            exact absurd hu.1 (by simp)
          · obtain ⟨-, -, rfl⟩ := hu
            exact absurd hc h3
    · rw [if_neg h2]
      constructor
      · intro h; exact absurd h (by simp)
      · rintro ⟨hu | hu, hc⟩
        · rw [h1f] at hu
          exact absurd hu.1 (by simp)
        · exact absurd hu.2.1 h2

/-! ### Characterisation of the date-text matcher -/

theorem digitsTail2_cons (d1 d2 y1 y2 y3 y4 : Char) (r : List Char) :
    digitsTail2 (d1 :: d2 :: ',' :: ' ' :: y1 :: y2 :: y3 :: y4 :: r) =
      if d1.isDigit && d2.isDigit && y1.isDigit && y2.isDigit && y3.isDigit && y4.isDigit then
        some [d1, d2, ',', ' ', y1, y2, y3, y4]
      else none := rfl

theorem digitsTail2_one (d1 y1 y2 y3 y4 : Char) (r : List Char) :
    digitsTail2 (d1 :: ',' :: ' ' :: y1 :: y2 :: y3 :: y4 :: r) = none := rfl

theorem digitsTail1_cons (d1 y1 y2 y3 y4 : Char) (r : List Char) :
    digitsTail1 (d1 :: ',' :: ' ' :: y1 :: y2 :: y3 :: y4 :: r) =
      if d1.isDigit && y1.isDigit && y2.isDigit && y3.isDigit && y4.isDigit then
        some [d1, ',', ' ', y1, y2, y3, y4]
      else none := rfl

theorem dateMatchAt_eq_some_iff (s m : List Char) :
    dateMatchAt s = some m ↔ ∃ rest, s = m ++ rest ∧ IsDateShape m := by
  constructor
  · intro h
    unfold dateMatchAt at h
    split at h
    · exact absurd h (by simp)
    · next hw =>
      split at h
      · rename_i r heq
        have hrun : runOf Char.isAlpha s = ((runOf Char.isAlpha s).1, ' ' :: r) := by
          rw [Prod.ext_iff]
          exact ⟨rfl, heq⟩
        obtain ⟨hs, hwa, -⟩ :=
          runOf_eq_spec Char.isAlpha s (runOf Char.isAlpha s).1 (' ' :: r) hrun
        cases h2 : digitsTail2 r with
        | some m2 =>
          rw [h2] at h
          obtain rfl : (runOf Char.isAlpha s).1 ++ ' ' :: m2 = m := by simpa using h
          unfold digitsTail2 at h2
          split at h2
          · next d1 d2 y1 y2 y3 y4 r0 =>
            split at h2
            · next hdig =>
              obtain rfl : [d1, d2, ',', ' ', y1, y2, y3, y4] = m2 := by simpa using h2
              simp only [Bool.and_eq_true] at hdig
              refine ⟨r0, ?_, (runOf Char.isAlpha s).1, [d1, d2], y1, y2, y3, y4,
                hw, hwa, Or.inr rfl, ?_, hdig.1.1.1.2, hdig.1.1.2,
                hdig.1.2, hdig.2, ?_⟩
              · exact hs.trans (by simp)
              · intro c hc
                rcases List.mem_cons.1 hc with rfl | hc
                · exact hdig.1.1.1.1.1
                · rcases List.mem_cons.1 hc with rfl | hc
                  · exact hdig.1.1.1.1.2
                  · exact absurd hc (by simp)
              · simp
            · exact absurd h2 (by simp)
          · exact absurd h2 (by simp)
        | none =>
          rw [h2] at h
          cases h1 : digitsTail1 r with
          | some m1 =>
            rw [h1] at h
            obtain rfl : (runOf Char.isAlpha s).1 ++ ' ' :: m1 = m := by simpa using h
            unfold digitsTail1 at h1
            split at h1
            · next d1 y1 y2 y3 y4 r0 =>
              split at h1
              · next hdig =>
                obtain rfl : [d1, ',', ' ', y1, y2, y3, y4] = m1 := by simpa using h1
                simp only [Bool.and_eq_true] at hdig
                refine ⟨r0, ?_, (runOf Char.isAlpha s).1, [d1], y1, y2, y3, y4,
                  hw, hwa, Or.inl rfl, ?_, hdig.1.1.1.2, hdig.1.1.2, hdig.1.2,
                  hdig.2, ?_⟩
                · exact hs.trans (by simp)
                · intro c hc
                  rcases List.mem_cons.1 hc with rfl | hc
                  · exact hdig.1.1.1.1
                  · exact absurd hc (by simp)
                · simp
              · exact absurd h1 (by simp)
            · exact absurd h1 (by simp)
          | none =>
            rw [h1] at h
            exact absurd h (by simp)
      · exact absurd h (by simp)
  · rintro ⟨rest, rfl, w, d, y1, y2, y3, y4, hw, hwa, hd, hdd, hy1, hy2, hy3, hy4, rfl⟩
    have hs : (w ++ ' ' :: (d ++ [',', ' ', y1, y2, y3, y4])) ++ rest =
        w ++ ' ' :: (d ++ ',' :: ' ' :: y1 :: y2 :: y3 :: y4 :: rest) := by simp
    rw [hs]
    have hrun : runOf Char.isAlpha (w ++ ' ' :: (d ++ ',' :: ' ' :: y1 :: y2 :: y3 :: y4 :: rest)) =
        (w, ' ' :: (d ++ ',' :: ' ' :: y1 :: y2 :: y3 :: y4 :: rest)) :=
      runOf_append_eq Char.isAlpha w ' ' _ hwa (by decide)
    unfold dateMatchAt
    rw [hrun]
    rcases hd with hd1 | hd2
    · obtain ⟨a, rfl⟩ := List.length_eq_one.1 hd1
      have ha : a.isDigit = true := hdd a (by simp)
      simp only [List.cons_append, List.nil_append]
      simp [hw, digitsTail2_one, digitsTail1_cons, ha, hy1, hy2, hy3, hy4]
    · obtain ⟨a, b, rfl⟩ := List.length_eq_two.1 hd2
      have ha : a.isDigit = true := hdd a (by simp)
      have hb : b.isDigit = true := hdd b (by simp)
      simp only [List.cons_append, List.nil_append]
      simp [hw, digitsTail2_cons, ha, hb, hy1, hy2, hy3, hy4]

/-! ### Characterisation of the class and venue matchers -/

theorem classAt_eq_some_iff (s seg : List Char) :
    classAt s = some seg ↔
      ∃ d rest, s = '/' :: (d ++ '/' :: (seg ++ '/' :: rest)) ∧ IsDateCore d ∧
        seg ≠ [] ∧ ∀ c ∈ seg, c ≠ '/' := by
  constructor
  · intro h
    unfold classAt at h
    split at h
    · rename_i t
      cases hcore : dateCore? t with
      | none => rw [hcore] at h; exact absurd h (by simp)
      | some t2 =>
        rw [hcore] at h
        simp only [Option.some_bind] at h
        rcases hrB : runOf (fun c => c != '/') t2 with ⟨a, b⟩
        unfold classTail at h
        rw [hrB] at h
        obtain ⟨ht2, ha, -⟩ := runOf_eq_spec (fun c => c != '/') t2 a b hrB
        split at h
        · exact absurd h (by simp)
        · next hane =>
          split at h
          · rename_i r heqb
            obtain rfl : a = seg := by simpa using h
            obtain ⟨d, rfl, hd⟩ := (dateCore?_eq_some_iff t t2).1 hcore
            have hb : b = '/' :: r := by simpa using heqb
            refine ⟨d, r, ?_, hd, by simpa using hane, ?_⟩
            · rw [ht2, hb]
            · intro c hc
              simpa using ha c hc
          · exact absurd h (by simp)
    · exact absurd h (by simp)
  · rintro ⟨d, rest, rfl, hd, hsegne, hsl⟩
    show (dateCore? (d ++ '/' :: (seg ++ '/' :: rest))).bind classTail = some seg
    rw [(dateCore?_eq_some_iff (d ++ '/' :: (seg ++ '/' :: rest)) (seg ++ '/' :: rest)).2
      ⟨d, rfl, hd⟩]
    simp only [Option.some_bind]
    unfold classTail
    have hrun : runOf (fun c => c != '/') (seg ++ '/' :: rest) = (seg, '/' :: rest) :=
      runOf_append_eq (fun c => c != '/') seg '/' rest
        (fun c hc => by simpa using hsl c hc) (by simp)
    rw [hrun]
    simp [hsegne]

theorem venueAt_eq_some_iff (s seg : List Char) :
    venueAt s = some seg ↔
      ∃ d mid tail, s = '/' :: (d ++ '/' :: (mid ++ '/' :: (seg ++ tail))) ∧
        IsDateCore d ∧ mid ≠ [] ∧ (∀ c ∈ mid, c ≠ '/') ∧ seg ≠ [] ∧
        (∀ c ∈ seg, c ≠ '/') ∧ (tail = [] ∨ tail = ['/']) := by
  constructor
  · intro h
    unfold venueAt at h
    split at h
    · rename_i t
      cases hcore : dateCore? t with
      | none => rw [hcore] at h; exact absurd h (by simp)
      | some t2 =>
        rw [hcore] at h
        simp only [Option.some_bind] at h
        rcases hrB : runOf (fun c => c != '/') t2 with ⟨a, b⟩
        unfold venueTail at h
        rw [hrB] at h
        obtain ⟨ht2, ha, -⟩ := runOf_eq_spec (fun c => c != '/') t2 a b hrB
        split at h
        · exact absurd h (by simp)
        · next hane =>
          split at h
          · rename_i t3 heqb
            rcases hrC : runOf (fun c => c != '/') t3 with ⟨a2, b2⟩
            unfold venueTail2 at h
            rw [hrC] at h
            obtain ⟨ht3, ha2, -⟩ := runOf_eq_spec (fun c => c != '/') t3 a2 b2 hrC
            obtain ⟨d, rfl, hd⟩ := (dateCore?_eq_some_iff t t2).1 hcore
            split at h
            · exact absurd h (by simp)
            · next ha2ne =>
              split at h
              · next hb2nil =>
                obtain rfl : a2 = seg := by simpa using h
                have hb : b = '/' :: t3 := by simpa using heqb
                have hb2 : b2 = [] := by simpa using hb2nil
                refine ⟨d, a, [], ?_, hd, by simpa using hane, ?_,
                  by simpa using ha2ne, ?_, Or.inl rfl⟩
                · rw [ht2, hb, ht3, hb2]
                · intro c hc
                  simpa using ha c hc
                · intro c hc
                  simpa using ha2 c hc
              · split at h
                · next hb2slash =>
                  obtain rfl : a2 = seg := by simpa using h
                  have hb : b = '/' :: t3 := by simpa using heqb
                  have hb2 : b2 = ['/'] := by simpa using hb2slash
                  refine ⟨d, a, ['/'], ?_, hd, by simpa using hane, ?_,
                    by simpa using ha2ne, ?_, Or.inr rfl⟩
                  · rw [ht2, hb, ht3, hb2]
                  · intro c hc
                    simpa using ha c hc
                  · intro c hc
                    simpa using ha2 c hc
                · exact absurd h (by simp)
          · exact absurd h (by simp)
    · exact absurd h (by simp)
  · rintro ⟨d, mid, tail, rfl, hd, hmidne, hmid, hsegne, hseg, htail⟩
    show (dateCore? (d ++ '/' :: (mid ++ '/' :: (seg ++ tail)))).bind venueTail = some seg
    rw [(dateCore?_eq_some_iff (d ++ '/' :: (mid ++ '/' :: (seg ++ tail)))
      (mid ++ '/' :: (seg ++ tail))).2 ⟨d, rfl, hd⟩]
    simp only [Option.some_bind]
    unfold venueTail
    have hrun : runOf (fun c => c != '/') (mid ++ '/' :: (seg ++ tail)) =
        (mid, '/' :: (seg ++ tail)) :=
      runOf_append_eq (fun c => c != '/') mid '/' (seg ++ tail)
        (fun c hc => by simpa using hmid c hc) (by simp)
    rw [hrun]
    rw [if_neg (by simpa using hmidne)]
    show venueTail2 (seg ++ tail) = some seg
    unfold venueTail2
    rcases htail with rfl | rfl
    · have hrun2 : runOf (fun c => c != '/') (seg ++ []) = (seg, []) := by
        rw [List.append_nil]
        exact runOf_all_eq (fun c => c != '/') seg (fun c hc => by simpa using hseg c hc)
      rw [hrun2]
      simp [hsegne]
    · have hrun2 : runOf (fun c => c != '/') (seg ++ ['/']) = (seg, ['/']) :=
        runOf_append_eq (fun c => c != '/') seg '/' []
          (fun c hc => by simpa using hseg c hc) (by simp)
      rw [hrun2]
      simp [hsegne]

/-! ### The shape of a parsed result page -/

theorem parse_result_page_eq (url : String) (p : Page) (t : Table) (rest : List Table)
    (h : p.tables = t :: rest) :
    parse_result_page url p = some
      ({ url := url, title := titleOf p, date := dateTextOf p, raceClass := classOf url,
         venue := venueOf url },
       { cols := ["event_url", "title", "date", "class", "venue", "year"] ++
           t.cols.map strTrim,
         rows := t.rows.map (fun r => Cell.str url :: Cell.str (titleOf p) ::
           Cell.str (dateTextOf p) :: Cell.str (classOf url) :: Cell.str (venueOf url) ::
           yearCell url :: r) }) := by
  unfold parse_result_page
  rw [h]
  simp only [Table.insertCol, List.map_map]
  rfl

theorem parse_result_page_props (url : String) (p : Page) (m : MetaRow) (df : Table)
    (h : parse_result_page url p = some (m, df)) :
    m.url = url ∧ df.cols.head? = some "event_url" ∧
      ∀ r ∈ df.rows, r.head? = some (Cell.str url) := by
  cases hp : p.tables with
  | nil =>
    unfold parse_result_page at h
    rw [hp] at h
    exact absurd h (by simp)
  | cons t rest =>
    rw [parse_result_page_eq url p t rest hp] at h
    have h2 := Option.some.inj h
    injection h2 with hm2 hdf2
    subst hm2
    subst hdf2
    refine ⟨rfl, by simp, ?_⟩
    intro r hr
    obtain ⟨r0, hr0, rfl⟩ := List.mem_map.1 hr
    simp

/-! ### Lemmas about the loops of main -/

theorem discoverStep_error (w : World) (acc : List String) (sy : String × Nat)
    (e : String) (h : w.listing sy.1 sy.2 = Except.error e) :
    discoverStep w acc sy = acc := by
  unfold discoverStep
  rw [h]

theorem discoverStep_ok (w : World) (acc : List String) (sy : String × Nat)
    (hrefs : List String) (h : w.listing sy.1 sy.2 = Except.ok hrefs) :
    discoverStep w acc sy = setUnion acc (list_year_races hrefs) := by
  unfold discoverStep
  rw [h]

theorem extractStep_error (w : World) (st : List MetaRow × List Table) (url : String)
    (e : String) (h : w.page url = Except.error e) : extractStep w st url = st := by
  unfold extractStep
  rw [h]

theorem extractStep_ok (w : World) (st : List MetaRow × List Table) (url : String)
    (p : Page) (h : w.page url = Except.ok p) :
    extractStep w st url = (match parse_result_page url p with
      | none => st
      | some (m, df) => (st.1 ++ [m], st.2 ++ [df])) := by
  unfold extractStep
  rw [h]

theorem mem_setUnion (acc l : List String) (u : String) :
    u ∈ setUnion acc l ↔ u ∈ acc ∨ u ∈ l := by
  unfold setUnion
  simp only [List.mem_append, List.mem_filter, Bool.not_eq_eq_eq_not, Bool.not_true]
  constructor
  · rintro (h | ⟨h, -⟩)
    · exact Or.inl h
    · exact Or.inr h
  · rintro (h | h)
    · exact Or.inl h
    · by_cases ha : u ∈ acc
      · exact Or.inl ha
      · refine Or.inr ⟨h, ?_⟩
        rw [Bool.eq_false_iff]
        intro hc
        exact ha (List.elem_iff.1 hc)

theorem mem_discoverLoop (w : World) (items : List (String × Nat)) :
    ∀ acc u, u ∈ discoverLoop w acc items ↔
      u ∈ acc ∨ ∃ sy ∈ items, ∃ hrefs, w.listing sy.1 sy.2 = Except.ok hrefs ∧
        u ∈ list_year_races hrefs := by
  induction items with
  | nil =>
    intro acc u
    simp [discoverLoop]
  | cons sy rest ih =>
    intro acc u
    have hstep : discoverLoop w acc (sy :: rest) = discoverLoop w (discoverStep w acc sy) rest :=
      rfl
    rw [hstep, ih]
    cases hl : w.listing sy.1 sy.2 with
    | ok hrefs =>
      rw [discoverStep_ok w acc sy hrefs hl]
      constructor
      · rintro (hu | ⟨sy2, hsy2, hrefs2, hok, hu⟩)
        · rcases (mem_setUnion acc (list_year_races hrefs) u).1 hu with h | h
          · exact Or.inl h
          · exact Or.inr ⟨sy, by simp, hrefs, hl, h⟩
        · exact Or.inr ⟨sy2, by simp [hsy2], hrefs2, hok, hu⟩
      · rintro (hu | ⟨sy2, hsy2, hrefs2, hok, hu⟩)
        · exact Or.inl ((mem_setUnion acc (list_year_races hrefs) u).2 (Or.inl hu))
        · rcases List.mem_cons.1 hsy2 with rfl | hsy2
          · rw [hl] at hok
            obtain rfl : hrefs = hrefs2 := Except.ok.inj hok
            exact Or.inl ((mem_setUnion acc (list_year_races hrefs) u).2 (Or.inr hu))
          · exact Or.inr ⟨sy2, hsy2, hrefs2, hok, hu⟩
    | error e =>
      rw [discoverStep_error w acc sy e hl]
      constructor
      · rintro (hu | ⟨sy2, hsy2, hrefs2, hok, hu⟩)
        · exact Or.inl hu
        · exact Or.inr ⟨sy2, by simp [hsy2], hrefs2, hok, hu⟩
      · rintro (hu | ⟨sy2, hsy2, hrefs2, hok, hu⟩)
        · exact Or.inl hu
        · rcases List.mem_cons.1 hsy2 with rfl | hsy2
          · rw [hl] at hok
            exact absurd hok (by simp)
          · exact Or.inr ⟨sy2, hsy2, hrefs2, hok, hu⟩

theorem aligned_extractStep (w : World) (st : List MetaRow × List Table) (url : String)
    (h : Aligned st) : Aligned (extractStep w st url) := by
  cases hw : w.page url with
  | error e =>
    rw [extractStep_error w st url e hw]
    exact h
  | ok p =>
    rw [extractStep_ok w st url p hw]
    cases hp : parse_result_page url p with
    | none => exact h
    | some mdf =>
      obtain ⟨m, df⟩ := mdf
      show Aligned (st.1 ++ [m], st.2 ++ [df])
      obtain ⟨hm, hcols, hrows⟩ := parse_result_page_props url p m df hp
      obtain ⟨hlen, hidx⟩ := h
      constructor
      · simp [hlen]
      · intro i h1 h2
        simp only [List.length_append, List.length_singleton] at h1 h2
        by_cases hi : i < st.1.length
        · have hi2 : i < st.2.length := hlen ▸ hi
          have e1 : (st.1 ++ [m]).get ⟨i, by simpa using h1⟩ = st.1.get ⟨i, hi⟩ :=
            List.get_append i hi
          have e2 : (st.2 ++ [df]).get ⟨i, by simpa using h2⟩ = st.2.get ⟨i, hi2⟩ :=
            List.get_append i hi2
          rw [e1, e2]
          exact hidx i hi hi2
        · have hi1 : i = st.1.length := by omega
          have hi2 : i = st.2.length := by omega
          subst hi1
          have e1 : (st.1 ++ [m]).get ⟨st.1.length, by simpa using h1⟩ = m :=
            List.get_of_append rfl rfl
          have e2 : (st.2 ++ [df]).get ⟨st.1.length, by simpa using h2⟩ = df :=
            List.get_of_append rfl hi2.symm
          rw [e1, e2, hm]
          exact ⟨hcols, hrows⟩

theorem aligned_extractLoop (w : World) (urls : List String) :
    ∀ st, Aligned st → Aligned (extractLoop w st urls) := by
  induction urls with
  | nil => intro st h; exact h
  | cons u rest ih =>
    intro st h
    exact ih (extractStep w st u) (aligned_extractStep w st u h)

/-! ### Lemmas about the event trace -/

theorem spaced_cons_block (u : String) (l : List Ev) :
    spaced (Ev.fetch u :: Ev.sleep :: l) = spaced l := rfl

theorem spaced_blocks (l : List (List Ev)) (h : ∀ b ∈ l, ∃ u, b = [Ev.fetch u, Ev.sleep]) :
    spaced l.flatten = true := by
  induction l with
  | nil => rfl
  | cons b rest ih =>
    obtain ⟨u, rfl⟩ := h b (by simp)
    have hshow : ([Ev.fetch u, Ev.sleep] :: rest).flatten =
        Ev.fetch u :: Ev.sleep :: rest.flatten := by simp
    rw [hshow, spaced_cons_block]
    exact ih (fun b2 hb2 => h b2 (by simp [hb2]))

/-! ### The date-text and title loops meet their specification -/

theorem dateLoop_spec (l : List Element) : DateSpecList l (dateLoop l) := by
  induction l with
  | nil => simp [DateSpecList, dateLoop]
  | cons e rest ih =>
    cases hr : reSearch dateMatchAt e.text.data with
    | some m =>
      have hloop : dateLoop (e :: rest) = String.mk m := by
        show (match reSearch dateMatchAt e.text.data with
          | some m => String.mk m
          | none => dateLoop rest) = String.mk m
        rw [hr]
      rw [hloop]
      show (HasDateOcc e.text.data ∧ LeftmostOcc e.text.data (String.mk m).data) ∨ _
      left
      rw [reSearch_eq_some_iff] at hr
      obtain ⟨i, hi, hmin⟩ := hr
      obtain ⟨rest2, hdrop, hshape⟩ := (dateMatchAt_eq_some_iff _ m).1 hi
      refine ⟨⟨i, m, rest2, hdrop, hshape⟩, i, ⟨rest2, hdrop, hshape⟩, ?_⟩
      intro j hj m2 hocc
      obtain ⟨r2, hd2, hs2⟩ := hocc
      have hj2 := (dateMatchAt_eq_some_iff (List.drop j e.text.data) m2).2 ⟨r2, hd2, hs2⟩
      rw [hmin j hj] at hj2
      exact absurd hj2 (by simp)
    | none =>
      have hloop : dateLoop (e :: rest) = dateLoop rest := by
        show (match reSearch dateMatchAt e.text.data with
          | some m => String.mk m
          | none => dateLoop rest) = dateLoop rest
        rw [hr]
      rw [hloop]
      show (HasDateOcc e.text.data ∧ _) ∨ (¬ HasDateOcc e.text.data ∧ DateSpecList rest _)
      right
      refine ⟨?_, ih⟩
      rintro ⟨i, m, r2, hd2, hs2⟩
      have hi := (dateMatchAt_eq_some_iff _ m).2 ⟨r2, hd2, hs2⟩
      rw [reSearch_eq_none_iff] at hr
      rw [hr i] at hi
      exact absurd hi (by simp)

theorem titleList_spec (l : List Element) :
    TitleSpecList l (match l.find? (fun e => headerTag e.tag) with
      | some h => h.text
      | none => "") := by
  induction l with
  | nil => simp [TitleSpecList]
  | cons e rest ih =>
    cases hh : headerTag e.tag with
    | true =>
      rw [List.find?_cons_of_pos rest hh]
      show (headerTag e.tag = true ∧ e.text = e.text) ∨ _
      exact Or.inl ⟨hh, rfl⟩
    | false =>
      rw [List.find?_cons_of_neg rest (by simp [hh])]
      show (headerTag e.tag = true ∧ _) ∨ (headerTag e.tag = false ∧ TitleSpecList rest _)
      exact Or.inr ⟨hh, ih⟩

/-! ### Claim C1 -/

/-- Claim C1 counterexample: a page with one hyperlink whose href is
path-relative (no leading slash) but contains a dated-event segment
/2024-01-06/ yields no links at all, so a link whose URL matches the
dated pattern is omitted, contrary to the claim. -/
theorem claim1_counterexample :
    ContainsDateSegP ("races/2024-01-06/450sx/anaheim".data) ∧
    list_year_races ["races/2024-01-06/450sx/anaheim"] = [] :=
  ⟨(containsDateSeg_iff _).1 (by decide), by decide⟩

/-- Claim C1 (amended): among hyperlinks whose href starts with a slash
(resolved against the base) or with http (kept as is), link discovery
returns exactly those whose absolute URL contains a dated-event
segment /YYYY-MM-DD/, as a sorted list without duplicates; hyperlinks
of any other href shape are ignored. -/
theorem claim1_amended (hrefs : List String) :
    (∀ href ∈ hrefs, ∀ full, normalizeHref href = some full → ContainsDateSegP full.data →
      full ∈ list_year_races hrefs) ∧
    (∀ u ∈ list_year_races hrefs, ContainsDateSegP u.data ∧
      ∃ href ∈ hrefs, normalizeHref href = some u) ∧
    List.Sorted (· < ·) (list_year_races hrefs) ∧ (list_year_races hrefs).Nodup := by
  refine ⟨?_, ?_, sorted_sortDedup _, nodup_sortDedup _⟩
  · intro href hh full hnorm hcont
    rw [mem_list_year_races]
    refine ⟨href, hh, ?_⟩
    unfold hrefLink
    rw [hnorm]
    show (if containsDateSeg full.data = true then some full else none) = some full
    rw [if_pos ((containsDateSeg_iff full.data).2 hcont)]
  · intro u hu
    rw [mem_list_year_races] at hu
    obtain ⟨href, hh, hlink⟩ := hu
    unfold hrefLink at hlink
    cases hnorm : normalizeHref href with
    | none =>
      rw [hnorm] at hlink
      exact absurd hlink (by simp)
    | some full =>
      rw [hnorm] at hlink
      have hlink2 : (if containsDateSeg full.data = true then some full else none) = some u :=
        hlink
      by_cases hc : containsDateSeg full.data = true
      · rw [if_pos hc] at hlink2
        obtain rfl : full = u := by simpa using hlink2
        exact ⟨(containsDateSeg_iff _).1 hc, href, hh, hnorm⟩
      · rw [if_neg hc] at hlink2
        exact absurd hlink2 (by simp)

/-- Claim C1 (amended) witness: a slash href with a dated segment is
returned resolved against the base. -/
theorem claim1_amended_witness :
    ("https://vault.racerxonline.com/2024-01-06/450sx/anaheim" : String) ∈
      list_year_races ["/2024-01-06/450sx/anaheim"] :=
  (claim1_amended ["/2024-01-06/450sx/anaheim"]).1 "/2024-01-06/450sx/anaheim" (by decide)
    "https://vault.racerxonline.com/2024-01-06/450sx/anaheim" (by decide)
    ((containsDateSeg_iff _).1 (by decide))

/-! ### Claim C10 -/

/-- Claim C10: a URL is returned by link discovery exactly when some
href of the page produces it, where an href starting with a slash is
resolved against the base origin, an href starting with http is kept
as is, any other href shape is excluded, and the produced absolute URL
contains a dated /YYYY-MM-DD/ segment. -/
theorem claim10_href_shapes (hrefs : List String) (u : String) :
    u ∈ list_year_races hrefs ↔
      ∃ href ∈ hrefs,
        ((strStarts href "/" = true ∧ u = BASE ++ href) ∨
          (strStarts href "/" = false ∧ strStarts href "http" = true ∧ u = href)) ∧
        ContainsDateSegP u.data := by
  rw [mem_list_year_races]
  constructor
  · rintro ⟨href, hh, hlink⟩
    obtain ⟨hshape, hc⟩ := (hrefLink_eq_some_iff href u).1 hlink
    exact ⟨href, hh, hshape, (containsDateSeg_iff _).1 hc⟩
  · rintro ⟨href, hh, hshape, hc⟩
    exact ⟨href, hh, (hrefLink_eq_some_iff href u).2 ⟨hshape, (containsDateSeg_iff _).2 hc⟩⟩

/-! ### Claim C2 -/

/-- Claim C2 counterexample: a table whose only column name carries a
trailing space is not returned unchanged after the metadata columns:
the column name is whitespace-stripped, so the original column name is
not preserved as the claim states. -/
theorem claim2_counterexample :
    (parse_result_page "u"
        { elems := [], tables := [{ cols := ["Pos "], rows := [[Cell.str "1"]] }] }).map
      (fun r => r.2.cols) =
      some ["event_url", "title", "date", "class", "venue", "year", "Pos"] ∧
    ("Pos" : String) ≠ "Pos " := by
  constructor
  · decide
  · decide

/-- Claim C2 (amended): for a page with at least one table,
parse_result_page returns the first table with the six metadata
columns event_url, title, date, class, venue, year inserted at
positions 0 to 5, the original column names whitespace-stripped, and
every cell of every original row unchanged after the six metadata
cells. -/
theorem claim2_amended (url : String) (p : Page) (t : Table) (rest : List Table)
    (h : p.tables = t :: rest) :
    ∃ m df, parse_result_page url p = some (m, df) ∧
      df.cols = ["event_url", "title", "date", "class", "venue", "year"] ++
        t.cols.map strTrim ∧
      df.rows = t.rows.map (fun r => Cell.str url :: Cell.str (titleOf p) ::
        Cell.str (dateTextOf p) :: Cell.str (classOf url) :: Cell.str (venueOf url) ::
        yearCell url :: r) :=
  ⟨_, _, parse_result_page_eq url p t rest h, rfl, rfl⟩

/-- Claim C2 (amended) witness at a concrete page with one table. -/
theorem claim2_amended_witness :
    ∃ m df, parse_result_page "u"
        { elems := [], tables := [{ cols := [" Pos "], rows := [[Cell.str "1"]] }] } =
        some (m, df) ∧
      df.cols = ["event_url", "title", "date", "class", "venue", "year"] ++
        [" Pos "].map strTrim ∧
      df.rows = [[Cell.str "1"]].map (fun r => Cell.str "u" ::
        Cell.str (titleOf { elems := [], tables := [{ cols := [" Pos "], rows := [[Cell.str "1"]] }] }) ::
        Cell.str (dateTextOf { elems := [], tables := [{ cols := [" Pos "], rows := [[Cell.str "1"]] }] }) ::
        Cell.str (classOf "u") :: Cell.str (venueOf "u") :: yearCell "u" :: r) :=
  claim2_amended "u" { elems := [], tables := [{ cols := [" Pos "], rows := [[Cell.str "1"]] }] }
    { cols := [" Pos "], rows := [[Cell.str "1"]] } [] rfl

/-! ### Claim C3 -/

/-- Claim C3 is contradicted by the code: for a dated event URL of the
vault site the year regex requires a slash right after the four
digits, but event URLs continue with a hyphen, so the year cell is
None rather than the four-digit season year the claim and the spec
describe. -/
theorem claim3_year_bug :
    ContainsDateSegP
      ("https://vault.racerxonline.com/2025-05-10/450sx/rice-eccles-stadium".data) ∧
    yearCell "https://vault.racerxonline.com/2025-05-10/450sx/rice-eccles-stadium" =
      Cell.null ∧
    (parse_result_page "https://vault.racerxonline.com/2025-05-10/450sx/rice-eccles-stadium"
        { elems := [], tables := [{ cols := ["Pos"], rows := [[Cell.str "1"]] }] }).map
      (fun r => r.2.rows) =
      some [[Cell.str "https://vault.racerxonline.com/2025-05-10/450sx/rice-eccles-stadium",
        Cell.str "", Cell.str "", Cell.str "450sx", Cell.str "Rice Eccles Stadium",
        Cell.null, Cell.str "1"]] :=
  ⟨(containsDateSeg_iff _).1 (by decide), by decide, by decide⟩

/-! ### Claim C4 -/

/-- Claim C4 counterexample: for a URL with exactly one path segment
after the date segment, the claim says the class label is that segment
lowercased, but the class regex requires a further slash after the
segment, so the code yields the empty string. -/
theorem claim4_counterexample :
    segAfterDate "https://vault.racerxonline.com/2025-05-10/450sx" = some "450sx".data ∧
    classOf "https://vault.racerxonline.com/2025-05-10/450sx" = "" := by
  constructor
  · decide
  · decide

/-- Claim C4 (amended): the class label is the lowercased segment
following the leftmost date segment whose following segment is itself
terminated by a slash (empty when there is no such position), and the
venue label is the title-cased, hyphen-to-space final path segment of
the leftmost date/class/venue-shaped match anchored at the end of the
URL (empty when the URL has no such shape). -/
theorem claim4_amended (url : String) (seg : List Char) :
    (reSearch classAt url.data = some seg ↔
      ∃ i, ClassAtPos url.data i seg ∧ ∀ j, j < i → ∀ s2, ¬ ClassAtPos url.data j s2) ∧
    (reSearch classAt url.data = none ↔ ∀ i s2, ¬ ClassAtPos url.data i s2) ∧
    (classOf url = match reSearch classAt url.data with
      | some s2 => String.mk (lowerChars s2)
      | none => "") ∧
    (reSearch venueAt url.data = some seg ↔
      ∃ i, VenueAtPos url.data i seg ∧ ∀ j, j < i → ∀ s2, ¬ VenueAtPos url.data j s2) ∧
    (reSearch venueAt url.data = none ↔ ∀ i s2, ¬ VenueAtPos url.data i s2) ∧
    (venueOf url = match reSearch venueAt url.data with
      | some s2 => String.mk (venueWords s2)
      | none => "") := by
  refine ⟨?_, ?_, rfl, ?_, ?_, rfl⟩
  · rw [reSearch_eq_some_iff]
    constructor
    · rintro ⟨i, hi, hmin⟩
      refine ⟨i, (classAt_eq_some_iff _ seg).1 hi, ?_⟩
      intro j hj s2 hocc
      have hsome := (classAt_eq_some_iff (List.drop j url.data) s2).2 hocc
      rw [hmin j hj] at hsome
      exact absurd hsome (by simp)
    · rintro ⟨i, hocc, hleft⟩
      refine ⟨i, (classAt_eq_some_iff _ seg).2 hocc, ?_⟩
      intro j hj
      cases hj2 : classAt (List.drop j url.data) with
      | none => rfl
      | some s2 => exact absurd ((classAt_eq_some_iff _ s2).1 hj2) (hleft j hj s2)
  · rw [reSearch_eq_none_iff]
    constructor
    · intro h i s2 hocc
      have hsome := (classAt_eq_some_iff (List.drop i url.data) s2).2 hocc
      rw [h i] at hsome
      exact absurd hsome (by simp)
    · intro h i
      cases hj2 : classAt (List.drop i url.data) with
      | none => rfl
      | some s2 => exact absurd ((classAt_eq_some_iff _ s2).1 hj2) (h i s2)
  · rw [reSearch_eq_some_iff]
    constructor
    · rintro ⟨i, hi, hmin⟩
      refine ⟨i, (venueAt_eq_some_iff _ seg).1 hi, ?_⟩
      intro j hj s2 hocc
      have hsome := (venueAt_eq_some_iff (List.drop j url.data) s2).2 hocc
      rw [hmin j hj] at hsome
      exact absurd hsome (by simp)
    · rintro ⟨i, hocc, hleft⟩
      refine ⟨i, (venueAt_eq_some_iff _ seg).2 hocc, ?_⟩
      intro j hj
      cases hj2 : venueAt (List.drop j url.data) with
      | none => rfl
      | some s2 => exact absurd ((venueAt_eq_some_iff _ s2).1 hj2) (hleft j hj s2)
  · rw [reSearch_eq_none_iff]
    constructor
    · intro h i s2 hocc
      have hsome := (venueAt_eq_some_iff (List.drop i url.data) s2).2 hocc
      rw [h i] at hsome
      exact absurd hsome (by simp)
    · intro h i
      cases hj2 : venueAt (List.drop i url.data) with
      | none => rfl
      | some s2 => exact absurd ((venueAt_eq_some_iff _ s2).1 hj2) (h i s2)

/-! ### Claim C5 -/

/-- Claim C5: the extracted date string is the leftmost occurrence of
text shaped like Month D, YYYY in the first of the h2, h3, p and div
elements, scanned in document order, whose text contains such an
occurrence, and the empty string when none does; and the title is the
text of the first h1 or h2 element, empty when the page has neither. -/
theorem claim5_date_title (p : Page) :
    DateSpecList (p.elems.filter (fun e => scanTag e.tag)) (dateTextOf p) ∧
    TitleSpecList p.elems (titleOf p) :=
  ⟨dateLoop_spec _, titleList_spec p.elems⟩

/-! ### Claim C6 -/

/-- Claim C6: an iteration whose fetch raises leaves the accumulated
state exactly as it was and the loop continues with the remaining
items, in the discovery loop (the link set) and in the extraction loop
(the metadata rows and the frames); no exception escapes either loop,
which is inherent in the loops being total folds in this model. -/
theorem claim6_skip_and_continue (w : World) (preD postD : List (String × Nat))
    (sy : String × Nat) (eD : String) (st : List MetaRow × List Table)
    (preU postU : List String) (url : String) (eU : String)
    (hD : w.listing sy.1 sy.2 = Except.error eD) (hU : w.page url = Except.error eU) :
    discoverLoop w [] (preD ++ sy :: postD) = discoverLoop w (discoverLoop w [] preD) postD ∧
    extractLoop w st (preU ++ url :: postU) = extractLoop w (extractLoop w st preU) postU := by
  constructor
  · unfold discoverLoop
    rw [List.foldl_append]
    show List.foldl _ (discoverStep w (List.foldl (discoverStep w) [] preD) sy) postD = _
    rw [discoverStep_error w _ sy eD hD]
  · unfold extractLoop
    rw [List.foldl_append]
    show List.foldl _ (extractStep w (List.foldl (extractStep w) st preU) url) postU = _
    rw [extractStep_error w _ url eU hU]

/-- Claim C6 witness: a concrete world whose mx listing fetch and page
fetch raise. -/
theorem claim6_witness :
    discoverLoop wErr [] ([("sx", 1974)] ++ ("mx", 1980) :: []) =
      discoverLoop wErr (discoverLoop wErr [] [("sx", 1974)]) [] ∧
    extractLoop wErr ([], []) ([] ++ "u" :: []) =
      extractLoop wErr (extractLoop wErr ([], []) []) [] :=
  claim6_skip_and_continue wErr [("sx", 1974)] [] ("mx", 1980) "HTTPError 500" ([], []) [] []
    "u" "ReadTimeout" rfl rfl

/-! ### Claim C7 -/

/-- Claim C7: the URLs the extraction loop visits are exactly the URLs
discovered on some successfully fetched listing page, deduplicated by
set membership and nothing more, visited without duplicates in sorted
order. -/
theorem claim7_dedup_sorted (w : World) (u : String) :
    (visitedUrls w).Nodup ∧ List.Sorted (· < ·) (visitedUrls w) ∧
    (u ∈ visitedUrls w ↔ ∃ sy ∈ discoveryItems, ∃ hrefs,
      w.listing sy.1 sy.2 = Except.ok hrefs ∧ u ∈ list_year_races hrefs) ∧
    mainResult w = extractLoop w ([], []) (visitedUrls w) := by
  refine ⟨nodup_sortDedup _, sorted_sortDedup _, ?_, rfl⟩
  unfold visitedUrls allLinks
  rw [mem_sortDedup, mem_discoverLoop]
  simp

/-! ### Claim C8 -/

/-- Claim C8 counterexample: in a world where the first listing fetch
raises, the trace of main has two consecutive fetches with no sleep
between them, because the politeness sleep sits inside the try block
and is skipped by a failing iteration; this contradicts the claim that
the delay also follows failing iterations. -/
theorem claim8_counterexample : spaced (mainTrace wFail) = false := rfl

/-- Claim C8 (amended): the 0.5 s politeness delay follows every
successful iteration of both loops, so when every fetch succeeds every
two consecutive fetches are separated by a sleep; an iteration that
raises emits its fetch and no sleep. -/
theorem claim8_amended (w : World) (items : List (String × Nat)) (urls : List String)
    (sy : String × Nat) (u : String) (eD eU : String)
    (hD : ∀ it ∈ items, ∃ hrefs, w.listing it.1 it.2 = Except.ok hrefs)
    (hU : ∀ v ∈ urls, ∃ p, w.page v = Except.ok p) :
    spaced (crawlTrace w items urls) = true ∧
    (w.listing sy.1 sy.2 = Except.error eD → discoverEv w sy = [Ev.fetch (listingUrl sy)]) ∧
    (w.page u = Except.error eU → extractEv w u = [Ev.fetch u]) := by
  refine ⟨?_, ?_, ?_⟩
  · unfold crawlTrace
    rw [← List.flatten_append]
    apply spaced_blocks
    intro b hb
    rcases List.mem_append.1 hb with h | h
    · obtain ⟨sy2, hsy2, rfl⟩ := List.mem_map.1 h
      obtain ⟨hrefs, hok⟩ := hD sy2 hsy2
      refine ⟨listingUrl sy2, ?_⟩
      unfold discoverEv
      rw [hok]
    · obtain ⟨v, hv, rfl⟩ := List.mem_map.1 h
      obtain ⟨pg, hok⟩ := hU v hv
      refine ⟨v, ?_⟩
      unfold extractEv
      rw [hok]
  · intro he
    unfold discoverEv
    rw [he]
  · intro he
    unfold extractEv
    rw [he]

/-- Claim C8 (amended) witness: all-success runs are spaced, and the
failing iterations of the wErr world skip the sleep. -/
theorem claim8_amended_witness :
    spaced (crawlTrace wErr [("sx", 1974)] []) = true ∧
    (wErr.listing ("mx", 1980).1 ("mx", 1980).2 = Except.error "HTTPError 500" →
      discoverEv wErr ("mx", 1980) = [Ev.fetch (listingUrl ("mx", 1980))]) ∧
    (wErr.page "u" = Except.error "ReadTimeout" → extractEv wErr "u" = [Ev.fetch "u"]) := by
  have h := claim8_amended wErr [("sx", 1974)] [] ("mx", 1980) "u" "HTTPError 500" "ReadTimeout"
    ?hD ?hU
  · exact h
  case hD =>
    intro it hit
    rcases List.mem_singleton.1 hit with rfl
    exact ⟨["/2024-01-06/450sx/anaheim"], rfl⟩
  case hU =>
    intro v hv
    exact absurd hv (by simp)

/-! ### Claim C9 -/

/-- Claim C9: at every point in the extraction loop there are as many
metadata rows as frames, and the i-th frame was produced from the same
URL as the i-th metadata row: its first column is event_url and every
one of its rows carries that URL in that column; hence the events file
has exactly one record per table of the results file, in the same
order. -/
theorem claim9_alignment (w : World) (urls : List String) :
    (meta_rows w urls).length = (frames w urls).length ∧
    ∀ i (h1 : i < (meta_rows w urls).length) (h2 : i < (frames w urls).length),
      ((frames w urls).get ⟨i, h2⟩).cols.head? = some "event_url" ∧
      ∀ r ∈ ((frames w urls).get ⟨i, h2⟩).rows,
        r.head? = some (Cell.str ((meta_rows w urls).get ⟨i, h1⟩).url) := by
  have h := aligned_extractLoop w urls ([], [])
    ⟨rfl, by intro i h1 h2; exact absurd h1 (by simp)⟩
  exact h

/-- Claim C9 witness: a concrete world with one visited URL producing
one metadata row and one frame. -/
theorem claim9_witness :
    ((frames wOk ["https://vault.racerxonline.com/2024-01-06/450sx/anaheim"]).get
      ⟨0, by decide⟩).cols.head? = some "event_url" ∧
    ∀ r ∈ ((frames wOk ["https://vault.racerxonline.com/2024-01-06/450sx/anaheim"]).get
      ⟨0, by decide⟩).rows,
      r.head? = some (Cell.str ((meta_rows wOk
        ["https://vault.racerxonline.com/2024-01-06/450sx/anaheim"]).get ⟨0, by decide⟩).url) :=
  (claim9_alignment wOk ["https://vault.racerxonline.com/2024-01-06/450sx/anaheim"]).2 0
    (by decide) (by decide)

/-- Claim C10 witness: an absolute http href with a dated segment is
kept as is. -/
theorem claim10_witness :
    ("https://example.com/2024-01-06/a" : String) ∈
      list_year_races ["https://example.com/2024-01-06/a"] :=
  (claim10_href_shapes ["https://example.com/2024-01-06/a"]
      "https://example.com/2024-01-06/a").2
    ⟨"https://example.com/2024-01-06/a", by decide,
      Or.inr ⟨by decide, by decide, rfl⟩, (containsDateSeg_iff _).1 (by decide)⟩

/-- Claim C4 (amended) witness: the concrete class match of a full
event URL is the leftmost class-shaped position. -/
theorem claim4_amended_witness :
    ∃ i, ClassAtPos "https://vault.racerxonline.com/2025-05-10/450sx/rice-eccles-stadium".data
        i "450sx".data ∧
      ∀ j, j < i → ∀ s2,
        ¬ ClassAtPos "https://vault.racerxonline.com/2025-05-10/450sx/rice-eccles-stadium".data
          j s2 :=
  ((claim4_amended "https://vault.racerxonline.com/2025-05-10/450sx/rice-eccles-stadium"
      "450sx".data).1).1 (by decide)

/-- Claim C7 witness: a discovered link is visited. -/
theorem claim7_witness :
    ("https://vault.racerxonline.com/2024-01-06/450sx/anaheim" : String) ∈ visitedUrls wOk :=
  ((claim7_dedup_sorted wOk "https://vault.racerxonline.com/2024-01-06/450sx/anaheim").2.2.1).2
    ⟨("sx", 1974), by decide, ["/2024-01-06/450sx/anaheim"], rfl, by decide⟩

end Datascrape
